import Mathlib

/-!
Shallow embedding of the inactivity-reminder bot (`src/bot.py`).

Time is modelled as `Int` (an absolute UTC timestamp in arbitrary units,
e.g. seconds); durations (`datetime.timedelta`) are likewise `Int`.
Channel identifiers are `Nat`.  The Python dict `CONFIG` is an association
list with distinct keys (a Python dict cannot hold a key twice); the Python
dict `STATE : Dict[int, Dict[str, Any]]` is a function
`ChannelId → Option ChannelState`.  Every write the program performs on a
`STATE` entry stores both the `last_message_at` and the `notified` field,
so an entry is modelled as the full record `ChannelState`.

External effects are modelled by oracles: `sendOk cid` tells whether the
channel lookup (`get_channel` / `fetch_channel`) and `channel.send` succeed
for channel `cid` during a tick (a raised exception is the `false` case),
and `HistoryResult` is the outcome of the `channel.history(limit=1)` lookup
during seeding.
-/

namespace MateModsBot

abbrev ChannelId := Nat

/-- One entry of the `CONFIG` dict: the inactivity `threshold`
(a `timedelta`) and the reminder `message` text. -/
structure ChannelCfg where
  threshold : Int
  message : String
deriving DecidableEq

/-- One entry of the `STATE` dict:
`{"last_message_at": datetime, "notified": bool}`. -/
structure ChannelState where
  last_message_at : Int
  notified : Bool
deriving DecidableEq

abbrev Config := List (ChannelId × ChannelCfg)

abbrev StateMap := ChannelId → Option ChannelState

/-- The keys of the `CONFIG` dict. -/
def keys (config : Config) : List ChannelId := config.map Prod.fst

/-- `CONFIG.get(cid)`: first (and, for dict-like configs, only) binding. -/
def dictGet (cid : ChannelId) : Config → Option ChannelCfg
  | [] => none
  | (c, cfg) :: rest => if cid = c then some cfg else dictGet cid rest

/-- `STATE[cid] = v`. -/
def setEntry (s : StateMap) (cid : ChannelId) (v : ChannelState) : StateMap :=
  fun c => if c = cid then some v else s c

/-- `on_message` (src/bot.py lines 82-86): if the channel is configured and
the author is not a bot, unconditionally overwrite the entry with
`{"last_message_at": message.created_at, "notified": False}`. -/
def on_message (config : Config) (cid : ChannelId) (created_at : Int)
    (author_bot : Bool) (s : StateMap) : StateMap :=
  if (dictGet cid config).isSome ∧ author_bot = false then
    setEntry s cid ⟨created_at, false⟩
  else s

/-- Outcome of the per-tick evaluation of one configured channel:
the updated `STATE`, the channels whose reminder was sent this tick (in
iteration order), and `some cid` when the lookup/send for `cid` raised,
aborting the remainder of the `for` loop (there is no try/except in
`check_inactivity`). -/
structure TickResult where
  state : StateMap
  fired : List ChannelId
  error : Option ChannelId

/-- `check_inactivity` (src/bot.py lines 88-106): one tick of the
`tasks.loop`.  Iterates the `CONFIG` dict; a missing `STATE` entry is
lazily re-seeded with the current time and skipped; otherwise Policy A:
dispatch when `now - last >= threshold and not notified` (then set
`notified = True`), clear `notified` when `now - last < threshold and
notified`.  A failing lookup/send raises out of the loop. -/
def check_inactivity (now : Int) (sendOk : ChannelId → Bool) :
    Config → StateMap → TickResult
  | [], s => ⟨s, [], none⟩
  | (cid, cfg) :: rest, s =>
    match s cid with
    | none => check_inactivity now sendOk rest (setEntry s cid ⟨now, false⟩)
    | some st =>
      if cfg.threshold ≤ now - st.last_message_at ∧ st.notified = false then
        if sendOk cid then
          let r := check_inactivity now sendOk rest
            (setEntry s cid ⟨st.last_message_at, true⟩)
          ⟨r.state, cid :: r.fired, r.error⟩
        else ⟨s, [], some cid⟩
      else if now - st.last_message_at < cfg.threshold ∧ st.notified = true then
        check_inactivity now sendOk rest (setEntry s cid ⟨st.last_message_at, false⟩)
      else check_inactivity now sendOk rest s

/-- Outcome of the `channel.history(limit=1)` lookup at seeding time:
a most recent message with timestamp `t`, an empty history, or a raised
exception (channel unreachable etc.). -/
inductive HistoryResult where
  | found (t : Int)
  | empty
  | failure
deriving DecidableEq

/-- The entry written for one channel by the seeding loop of `on_ready`
(src/bot.py lines 66-77): a found message gives its timestamp, an empty
history or a caught exception falls back to the current time
`dt.datetime.now(dt.timezone.utc)`; `notified` starts `False` in all
three branches. -/
def seedEntry (now_start : Int) : HistoryResult → ChannelState
  | .found t => ⟨t, false⟩
  | .empty => ⟨now_start, false⟩
  | .failure => ⟨now_start, false⟩

/-- `on_ready` seeding loop (src/bot.py lines 62-77): every configured
channel gets an entry; the try/except makes a history failure non-fatal,
so the loop always reaches the next channel. -/
def on_ready (now_start : Int) (history : ChannelId → HistoryResult) :
    Config → StateMap → StateMap
  | [], s => s
  | (cid, _) :: rest, s =>
    on_ready now_start history rest
      (setEntry s cid (seedEntry now_start (history cid)))

/-- One rendered line of the `status` command: either full information
(last activity, elapsed, remaining-until-threshold as displayed, notified
flag) or the `last: unknown` form used when no entry exists. -/
inductive StatusLine where
  | info (cid : ChannelId) (last elapsed remaining : Int) (notified : Bool)
  | unknown (cid : ChannelId)
deriving DecidableEq

/-- The line `status` renders for one channel (src/bot.py lines 113-127):
with an entry, `elapsed = now - last`, `remaining = threshold - elapsed`,
and the displayed remaining value is `max(remaining, timedelta(0))`;
without one (`st.get("last_message_at")` is `None`), the unknown form. -/
def statusLine (now : Int) (cid : ChannelId) (cfg : ChannelCfg) :
    Option ChannelState → StatusLine
  | some st =>
    .info cid st.last_message_at (now - st.last_message_at)
      (max (cfg.threshold - (now - st.last_message_at)) 0) st.notified
  | none => .unknown cid

/-- The `status` command (src/bot.py lines 109-128): one line per entry of
the `CONFIG` dict, in iteration order; a pure read of `STATE`. -/
def status (now : Int) (config : Config) (s : StateMap) : List StatusLine :=
  config.map (fun p => statusLine now p.1 p.2 (s p.1))

/-- The displayed remaining-until-threshold value of a status line, when
the line carries one. -/
def StatusLine.remainingVal : StatusLine → Option Int
  | .info _ _ _ r _ => some r
  | .unknown _ => none

/-- Policy A evaluation of a single existing entry at one tick:
the updated entry and whether the reminder was dispatched (assuming the
send succeeds).  This is the body of the `for` loop of `check_inactivity`
restricted to one channel. -/
def tickChannel (now th : Int) (st : ChannelState) : ChannelState × Bool :=
  if th ≤ now - st.last_message_at ∧ st.notified = false then
    (⟨st.last_message_at, true⟩, true)
  else if now - st.last_message_at < th ∧ st.notified = true then
    (⟨st.last_message_at, false⟩, false)
  else (st, false)

/-- The entry a (send-successful) tick at time `now` leaves for a channel
with threshold `th`: a missing entry is lazily re-seeded, an existing one
follows `tickChannel`. -/
def tickEntry (now th : Int) : Option ChannelState → ChannelState
  | none => ⟨now, false⟩
  | some st => (tickChannel now th st).1

/-- Whether a (send-successful) tick dispatches for the given entry. -/
def tickFires (now th : Int) : Option ChannelState → Bool
  | none => false
  | some st => (tickChannel now th st).2

/-- Iterated single-channel ticks: final entry and, per tick in order,
whether the reminder fired at that tick. -/
def runTicksChannel (th : Int) : List Int → ChannelState → ChannelState × List Bool
  | [], st => (st, [])
  | t :: ts, st =>
    let p := tickChannel t th st
    let q := runTicksChannel th ts p.1
    (q.1, p.2 :: q.2)

/-- Iterated full-system ticks at the given times (all with the same send
oracle): the final `STATE` and, per tick in order, whether channel `cid`
fired at that tick. -/
def runTicks (config : Config) (sendOk : ChannelId → Bool) (cid : ChannelId) :
    List Int → StateMap → StateMap × List Bool
  | [], s => (s, [])
  | t :: ts, s =>
    let r := check_inactivity t sendOk config s
    let q := runTicks config sendOk cid ts r.state
    (q.1, (decide (cid ∈ r.fired)) :: q.2)

/-- The flag pattern Policy A promises an inactivity episode starting with
`lastActivityAt = last` and ticks at non-decreasing times: `true` exactly
at the first tick whose elapsed time reaches the threshold, `false`
everywhere else. -/
def firstCrossFlags (th last : Int) : List Int → List Bool
  | [] => []
  | t :: ts =>
    if th ≤ t - last then true :: ts.map (fun _ => false)
    else false :: firstCrossFlags th last ts

/-- An externally observable event hitting the shared `STATE`: a scheduler
tick (with its send oracle) or an incoming message. -/
inductive Event where
  | tick (now : Int) (sendOk : ChannelId → Bool)
  | msg (cid : ChannelId) (t : Int) (authorBot : Bool)

/-- Apply one event to the shared `STATE`. -/
def stepEvent (config : Config) (s : StateMap) : Event → StateMap
  | .tick now sendOk => (check_inactivity now sendOk config s).state
  | .msg cid t b => on_message config cid t b s

/-- Run a serialized event trace over the shared `STATE`. -/
def run (config : Config) (s : StateMap) : List Event → StateMap
  | [] => s
  | e :: es => run config (stepEvent config s e) es

/-- The time of the most recent tick in the trace, starting from a
previous tick time `prev` (none if no tick has happened yet). -/
def lastTickFrom (prev : Option Int) : List Event → Option Int
  | [] => prev
  | .tick t _ :: es => lastTickFrom (some t) es
  | .msg _ _ _ :: es => lastTickFrom prev es

/-- Tick times along the trace are non-decreasing, and the first one is
no earlier than the previous tick time `prev` (wall-clock time moves
forward between scheduler iterations). -/
def ticksMonoFrom (prev : Option Int) : List Event → Prop
  | [] => True
  | .tick t _ :: es => (∀ p, prev = some p → p ≤ t) ∧ ticksMonoFrom (some t) es
  | .msg _ _ _ :: es => ticksMonoFrom prev es

/-! ### Basic lemmas about the state map and the config dict -/

theorem setEntry_self (s : StateMap) (cid : ChannelId) (v : ChannelState) :
    setEntry s cid v cid = some v := by
  simp [setEntry]

theorem setEntry_other (s : StateMap) (cid c : ChannelId) (v : ChannelState)
    (h : c ≠ cid) : setEntry s cid v c = s c := by
  simp [setEntry, h]

theorem dictGet_eq_of_mem {config : Config} {cid : ChannelId} {cfg : ChannelCfg}
    (hnd : (keys config).Nodup) (hmem : (cid, cfg) ∈ config) :
    dictGet cid config = some cfg := by
  induction config with
  | nil => cases hmem
  | cons hd tl ih =>
    obtain ⟨c0, cfg0⟩ := hd
    simp only [keys, List.map_cons, List.nodup_cons] at hnd
    rcases List.mem_cons.mp hmem with heq | htl
    · cases heq
      simp [dictGet]
    · have hne : cid ≠ c0 := by
        intro h
        subst h
        exact hnd.1 (List.mem_map.mpr ⟨(cid, cfg), htl, rfl⟩)
      simpa [dictGet, hne] using ih hnd.2 htl

theorem isSome_dictGet_of_mem {config : Config} {cid : ChannelId}
    (hmem : cid ∈ keys config) : (dictGet cid config).isSome = true := by
  induction config with
  | nil => cases hmem
  | cons hd tl ih =>
    obtain ⟨c0, cfg0⟩ := hd
    by_cases h : cid = c0
    · simp [dictGet, h]
    · simp only [keys, List.map_cons, List.mem_cons] at hmem
      rcases hmem with h0 | htl
      · exact absurd h0 h
      · simpa [dictGet, h] using ih htl

/-! ### C4: recordActivity postcondition (`on_message`) -/

/-- C4.  For a configured channel and a non-bot author, `on_message`
unconditionally overwrites the entry with the message timestamp and a
cleared notified flag — in particular an out-of-order timestamp moves
`last_message_at` backward.  A bot author or an unconfigured channel
leaves `STATE` untouched. -/
theorem on_message_spec (config : Config) (cid : ChannelId) (t : Int)
    (b : Bool) (s : StateMap) :
    ((dictGet cid config).isSome = true →
      on_message config cid t false s cid = some ⟨t, false⟩) ∧
    ((dictGet cid config).isSome = false ∨ b = true →
      on_message config cid t b s = s) := by
  constructor
  · intro h
    simp [on_message, h, setEntry]
  · rintro (h | h) <;> simp [on_message, h]

theorem on_message_spec_witness :
    on_message [(1, ⟨10, "m"⟩)] 1 3
      false (fun c => if c = 1 then some ⟨7, true⟩ else none) 1 = some ⟨3, false⟩ ∧
    on_message [(1, ⟨10, "m"⟩)] 1 3
      true (fun c => if c = 1 then some ⟨7, true⟩ else none) = (fun c => if c = 1 then some ⟨7, true⟩ else none) :=
  ⟨(on_message_spec [(1, ⟨10, "m"⟩)] 1 3 false
      (fun c => if c = 1 then some ⟨7, true⟩ else none)).1 (by decide),
   (on_message_spec [(1, ⟨10, "m"⟩)] 1 3 true
      (fun c => if c = 1 then some ⟨7, true⟩ else none)).2 (Or.inr rfl)⟩

/-! ### C5: seeding correctness (`on_ready`) -/

theorem on_ready_frame (now_start : Int) (history : ChannelId → HistoryResult) :
    ∀ (config : Config) (s : StateMap) (cid : ChannelId),
      cid ∉ keys config → on_ready now_start history config s cid = s cid := by
  intro config
  induction config with
  | nil => intro s cid _; rfl
  | cons hd tl ih =>
    intro s cid hcid
    obtain ⟨c0, cfg0⟩ := hd
    simp only [keys, List.map_cons, List.mem_cons, not_or] at hcid
    rw [on_ready, ih _ _ (by simpa [keys] using hcid.2)]
    exact setEntry_other s c0 cid _ hcid.1

theorem on_ready_sets (now_start : Int) (history : ChannelId → HistoryResult) :
    ∀ (config : Config) (s : StateMap) (cid : ChannelId),
      cid ∈ keys config →
      on_ready now_start history config s cid
        = some (seedEntry now_start (history cid)) := by
  intro config
  induction config with
  | nil => intro s cid h; cases h
  | cons hd tl ih =>
    intro s cid hcid
    obtain ⟨c0, cfg0⟩ := hd
    by_cases htl : cid ∈ keys tl
    · rw [on_ready]
      exact ih _ cid htl
    · simp only [keys, List.map_cons, List.mem_cons] at hcid
      have hc0 : cid = c0 := by
        rcases hcid with h | h
        · exact h
        · exact absurd (by simpa [keys] using h) htl
      subst hc0
      rw [on_ready, on_ready_frame now_start history tl _ cid htl]
      exact setEntry_self s cid _

/-- C5.  After the `on_ready` seeding loop, every configured channel has an
entry: a found history message gives `last_message_at` its timestamp, an
empty history or a failed lookup falls back to the startup time; `notified`
starts false in every case, and a failure never prevents the remaining
channels from being seeded (the loop is total). -/
theorem seeding_spec (now_start : Int) (history : ChannelId → HistoryResult)
    (config : Config) (s : StateMap) (cid : ChannelId)
    (hmem : cid ∈ keys config) :
    (∀ t, history cid = .found t →
      on_ready now_start history config s cid = some ⟨t, false⟩) ∧
    (history cid = .empty ∨ history cid = .failure →
      on_ready now_start history config s cid = some ⟨now_start, false⟩) := by
  constructor
  · intro t ht
    rw [on_ready_sets now_start history config s cid hmem, ht]
    rfl
  · intro h
    rw [on_ready_sets now_start history config s cid hmem]
    rcases h with h | h <;> rw [h] <;> rfl

theorem seeding_spec_witness :
    on_ready 50 (fun c => if c = 1 then .found 42 else .failure)
      [(1, ⟨10, "m"⟩), (2, ⟨20, "n"⟩)] (fun _ => none) 1 = some ⟨42, false⟩ ∧
    on_ready 50 (fun c => if c = 1 then .found 42 else .failure)
      [(1, ⟨10, "m"⟩), (2, ⟨20, "n"⟩)] (fun _ => none) 2 = some ⟨50, false⟩ :=
  ⟨(seeding_spec 50 (fun c => if c = 1 then .found 42 else .failure)
      [(1, ⟨10, "m"⟩), (2, ⟨20, "n"⟩)] (fun _ => none) 1 (by decide)).1 42 rfl,
   (seeding_spec 50 (fun c => if c = 1 then .found 42 else .failure)
      [(1, ⟨10, "m"⟩), (2, ⟨20, "n"⟩)] (fun _ => none) 2 (by decide)).2 (Or.inr rfl)⟩

/-! ### C7: remaining duration is floored at zero (`status`) -/

/-- C7.  For a configured channel with a known entry, the status line's
displayed remaining-until-threshold value is exactly
`max 0 (threshold - elapsed)` with `elapsed = now - last_message_at`, and
it is never negative. -/
theorem status_remaining (now : Int) (config : Config) (s : StateMap)
    (cid : ChannelId) (cfg : ChannelCfg) (st : ChannelState)
    (hmem : (cid, cfg) ∈ config) (hst : s cid = some st) :
    statusLine now cid cfg (s cid) ∈ status now config s ∧
    (statusLine now cid cfg (s cid)).remainingVal
      = some (max 0 (cfg.threshold - (now - st.last_message_at))) ∧
    (∀ r, (statusLine now cid cfg (s cid)).remainingVal = some r → 0 ≤ r) := by
  refine ⟨List.mem_map.mpr ⟨(cid, cfg), hmem, rfl⟩, ?_, ?_⟩
  · rw [hst]
    simp [statusLine, StatusLine.remainingVal, max_comm]
  · intro r hr
    rw [hst] at hr
    simp only [statusLine, StatusLine.remainingVal, Option.some.injEq] at hr
    rw [← hr]
    exact le_max_right _ _

theorem status_remaining_witness :
    statusLine 100 1 ⟨10, "m"⟩ ((fun c => if c = 1 then some ⟨5, false⟩ else none) 1)
        ∈ status 100 [(1, ⟨10, "m"⟩)] (fun c => if c = 1 then some ⟨5, false⟩ else none) ∧
    (statusLine 100 1 ⟨10, "m"⟩
        ((fun c => if c = 1 then some ⟨5, false⟩ else none) 1)).remainingVal
      = some (max 0 ((10 : Int) - (100 - 5))) ∧
    (∀ r, (statusLine 100 1 ⟨10, "m"⟩
        ((fun c => if c = 1 then some ⟨5, false⟩ else none) 1)).remainingVal = some r → 0 ≤ r) :=
  status_remaining 100 [(1, ⟨10, "m"⟩)] (fun c => if c = 1 then some ⟨5, false⟩ else none)
    1 ⟨10, "m"⟩ ⟨5, false⟩ (by decide) rfl

/-! ### C10: the status query is total and read-only -/

/-- C10.  The `status` command renders a line for every configured channel
in every state of the tracker: when a channel has no entry at all
(`st.get("last_message_at")` is `None`), the line is the `last: unknown`
form instead of an error.  `status` is a pure function of the state (its
result type contains no state), so it cannot mutate the tracker. -/
theorem status_total (now : Int) (config : Config) (s : StateMap) :
    (status now config s).length = config.length ∧
    (∀ cid cfg, (cid, cfg) ∈ config → s cid = none →
      StatusLine.unknown cid ∈ status now config s) := by
  constructor
  · exact List.length_map _ _
  · intro cid cfg hmem hnone
    refine List.mem_map.mpr ⟨(cid, cfg), hmem, ?_⟩
    rw [hnone]
    rfl

theorem status_total_witness :
    (status 5 [(1, ⟨10, "m"⟩), (2, ⟨20, "n"⟩)] (fun _ => none)).length = 2 ∧
    StatusLine.unknown 2 ∈ status 5 [(1, ⟨10, "m"⟩), (2, ⟨20, "n"⟩)] (fun _ => none) := by
  have h := status_total 5 [(1, ⟨10, "m"⟩), (2, ⟨20, "n"⟩)] (fun _ => none)
  exact ⟨h.1, h.2 2 ⟨20, "n"⟩ (by decide) rfl⟩

/-! ### C3: dispatch failure is NOT isolated to one channel

`check_inactivity` has no try/except: a failing `fetch_channel` /
`channel.send` raises out of the `for` loop, so the channels after the
failing one in iteration order are not evaluated on that tick. -/

/-- C3 counterexample.  Two configured channels; the send for channel 1
fails at `now = 100`.  The tick aborts with the exception from channel 1,
and channel 2 — whose entry `⟨95, true⟩` a normal evaluation would have
updated to `⟨95, false⟩` (elapsed `5 < 10` with `notified` set) — is left
unevaluated, its stale `notified` flag intact.  This refutes the claim
that every other configured channel is still evaluated on that tick. -/
theorem dispatch_failure_not_isolated :
    (check_inactivity 100 (fun c => if c = 1 then false else true)
      [(1, ⟨10, "a"⟩), (2, ⟨10, "b"⟩)]
      (fun c => if c = 1 then some ⟨0, false⟩
                else if c = 2 then some ⟨95, true⟩ else none)).error = some 1 ∧
    (check_inactivity 100 (fun c => if c = 1 then false else true)
      [(1, ⟨10, "a"⟩), (2, ⟨10, "b"⟩)]
      (fun c => if c = 1 then some ⟨0, false⟩
                else if c = 2 then some ⟨95, true⟩ else none)).state 2
      = some ⟨95, true⟩ ∧
    (tickChannel 100 10 ⟨95, true⟩).1 = ⟨95, false⟩ := by
  refine ⟨rfl, rfl, by decide⟩

/-- C3 as amended.  When the lookup/send for a configured channel raises at
dispatch time, the exception propagates out of the loop body: the tick ends
immediately with that error, no reminder is recorded as sent, the failing
channel's `notified` flag stays false, and none of the channels after it in
iteration order are evaluated on that tick (their entries, like all
entries, are exactly as before the failing dispatch). -/
theorem dispatch_failure_aborts_tick (now : Int) (sendOk : ChannelId → Bool)
    (cid : ChannelId) (cfg : ChannelCfg) (rest : Config) (s : StateMap)
    (st : ChannelState) (hst : s cid = some st) (hn : st.notified = false)
    (hth : cfg.threshold ≤ now - st.last_message_at)
    (hsend : sendOk cid = false) :
    check_inactivity now sendOk ((cid, cfg) :: rest) s = ⟨s, [], some cid⟩ := by
  rw [check_inactivity, hst]
  simp [hth, hn, hsend]

theorem dispatch_failure_aborts_tick_witness :
    check_inactivity 100 (fun _ => false) [(1, ⟨10, "a"⟩), (2, ⟨10, "b"⟩)]
      (fun c => if c = 1 then some ⟨0, false⟩ else none)
      = ⟨(fun c => if c = 1 then some ⟨0, false⟩ else none), [], some 1⟩ :=
  dispatch_failure_aborts_tick 100 (fun _ => false) 1 ⟨10, "a"⟩ [(2, ⟨10, "b"⟩)]
    (fun c => if c = 1 then some ⟨0, false⟩ else none) ⟨0, false⟩ rfl rfl
    (by decide) rfl

/-! ### Per-channel characterization of one tick -/

/-- A tick never touches the entry of a channel that is not configured,
and never reports it as fired — including when the loop aborts early. -/
theorem check_frame (now : Int) (sendOk : ChannelId → Bool) :
    ∀ (cfgs : Config) (s : StateMap) (cid : ChannelId), cid ∉ keys cfgs →
      (check_inactivity now sendOk cfgs s).state cid = s cid ∧
      cid ∉ (check_inactivity now sendOk cfgs s).fired := by
  intro cfgs
  induction cfgs with
  | nil =>
    intro s cid _
    exact ⟨rfl, by simp [check_inactivity]⟩
  | cons hd tl ih =>
    intro s cid hcid
    obtain ⟨c0, cfg0⟩ := hd
    simp only [keys, List.map_cons, List.mem_cons, not_or] at hcid
    obtain ⟨hne, htl⟩ := hcid
    have htl' : cid ∉ keys tl := by simpa [keys] using htl
    rw [check_inactivity]
    cases hs0 : s c0 with
    | none =>
      have h := ih (setEntry s c0 ⟨now, false⟩) cid htl'
      rwa [setEntry_other s c0 cid _ hne] at h
    | some st =>
      by_cases h1 : cfg0.threshold ≤ now - st.last_message_at ∧ st.notified = false
      · by_cases h2 : sendOk c0 = true
        · have h := ih (setEntry s c0 ⟨st.last_message_at, true⟩) cid htl'
          rw [setEntry_other s c0 cid _ hne] at h
          simp only [if_pos h1, h2, if_true]
          refine ⟨h.1, ?_⟩
          intro hmem
          rcases List.mem_cons.mp hmem with h' | h'
          · exact hne h'
          · exact h.2 h'
        · simp only [if_pos h1, h2, if_false]
          exact ⟨rfl, by simp⟩
      · by_cases h2 : now - st.last_message_at < cfg0.threshold ∧ st.notified = true
        · have h := ih (setEntry s c0 ⟨st.last_message_at, false⟩) cid htl'
          rw [setEntry_other s c0 cid _ hne] at h
          simpa only [if_neg h1, if_pos h2] using h
        · simpa only [if_neg h1, if_neg h2] using ih s cid htl'

/-- When every send succeeds, a tick's effect on a configured channel is
exactly `tickEntry` / `tickFires`: a missing entry is re-seeded to
`⟨now, false⟩` without firing, an existing one is evaluated by Policy A. -/
theorem tick_exact (now : Int) (sendOk : ChannelId → Bool)
    (hall : ∀ c, sendOk c = true) :
    ∀ (cfgs : Config) (s : StateMap) (cid : ChannelId) (cfg : ChannelCfg),
      (keys cfgs).Nodup → (cid, cfg) ∈ cfgs →
      (check_inactivity now sendOk cfgs s).state cid
          = some (tickEntry now cfg.threshold (s cid)) ∧
      (cid ∈ (check_inactivity now sendOk cfgs s).fired
          ↔ tickFires now cfg.threshold (s cid) = true) := by
  intro cfgs
  induction cfgs with
  | nil =>
    intro s cid cfg _ hmem
    cases hmem
  | cons hd tl ih =>
    intro s cid cfg hnd hmem
    obtain ⟨c0, cfg0⟩ := hd
    simp only [keys, List.map_cons, List.nodup_cons] at hnd
    have hnd' : (keys tl).Nodup := hnd.2
    rcases List.mem_cons.mp hmem with heq | htl
    · -- the channel is the head of the config list
      cases heq
      have hout : cid ∉ keys tl := by
        intro h
        exact hnd.1 (by simpa [keys] using h)
      rw [check_inactivity]
      cases hs0 : s cid with
      | none =>
        have h := check_frame now sendOk tl (setEntry s cid ⟨now, false⟩) cid hout
        rw [setEntry_self] at h
        exact ⟨h.1, by simp [h.2, tickFires]⟩
      | some st =>
        by_cases h1 : cfg.threshold ≤ now - st.last_message_at ∧ st.notified = false
        · have h := check_frame now sendOk tl
            (setEntry s cid ⟨st.last_message_at, true⟩) cid hout
          rw [setEntry_self] at h
          simp only [if_pos h1, hall cid, if_true]
          constructor
          · simpa [tickEntry, tickChannel, if_pos h1] using h.1
          · simp [tickFires, tickChannel, if_pos h1]
        · by_cases h2 : now - st.last_message_at < cfg.threshold ∧ st.notified = true
          · have h := check_frame now sendOk tl
              (setEntry s cid ⟨st.last_message_at, false⟩) cid hout
            rw [setEntry_self] at h
            simp only [if_neg h1, if_pos h2]
            constructor
            · simpa [tickEntry, tickChannel, if_neg h1, if_pos h2] using h.1
            · simp [h.2, tickFires, tickChannel, if_neg h1, if_pos h2]
          · have h := check_frame now sendOk tl s cid hout
            simp only [if_neg h1, if_neg h2]
            constructor
            · rw [h.1, hs0]
              simp [tickEntry, tickChannel, if_neg h1, if_neg h2]
            · simp [h.2, tickFires, tickChannel, if_neg h1, if_neg h2]
    · -- the channel sits further down the config list
      have hcidtl : cid ∈ keys tl := List.mem_map.mpr ⟨(cid, cfg), htl, rfl⟩
      have hne : cid ≠ c0 := by
        intro h
        subst h
        exact hnd.1 (by simpa [keys] using hcidtl)
      rw [check_inactivity]
      cases hs0 : s c0 with
      | none =>
        have h := ih (setEntry s c0 ⟨now, false⟩) cid cfg hnd' htl
        rwa [setEntry_other s c0 cid _ hne] at h
      | some st =>
        by_cases h1 : cfg0.threshold ≤ now - st.last_message_at ∧ st.notified = false
        · have h := ih (setEntry s c0 ⟨st.last_message_at, true⟩) cid cfg hnd' htl
          rw [setEntry_other s c0 cid _ hne] at h
          simp only [if_pos h1, hall c0, if_true]
          refine ⟨h.1, ?_⟩
          rw [← h.2]
          constructor
          · intro hmem'
            rcases List.mem_cons.mp hmem' with h' | h'
            · exact absurd h' hne
            · exact h'
          · intro h'
            exact List.mem_cons.mpr (Or.inr h')
        · by_cases h2 : now - st.last_message_at < cfg0.threshold ∧ st.notified = true
          · have h := ih (setEntry s c0 ⟨st.last_message_at, false⟩) cid cfg hnd' htl
            rw [setEntry_other s c0 cid _ hne] at h
            simpa only [if_neg h1, if_pos h2] using h
          · simpa only [if_neg h1, if_neg h2] using ih s cid cfg hnd' htl

/-- Weakening the per-channel tick case analysis from the tail of the
config list to the whole list. -/
theorem tick_cases_weaken {o : Option ChannelState} {st' : ChannelState}
    {now : Int} {sendOk : ChannelId → Bool} {cid : ChannelId}
    {hd : ChannelId × ChannelCfg} {tl : Config} :
    (o = some st'
      ∨ (o = none ∧ st' = ⟨now, false⟩)
      ∨ (∃ st cfg, o = some st ∧ (cid, cfg) ∈ tl
          ∧ cfg.threshold ≤ now - st.last_message_at ∧ st.notified = false
          ∧ sendOk cid = true ∧ st' = ⟨st.last_message_at, true⟩)
      ∨ (∃ st, o = some st ∧ st.notified = true
          ∧ st' = ⟨st.last_message_at, false⟩)) →
    (o = some st'
      ∨ (o = none ∧ st' = ⟨now, false⟩)
      ∨ (∃ st cfg, o = some st ∧ (cid, cfg) ∈ hd :: tl
          ∧ cfg.threshold ≤ now - st.last_message_at ∧ st.notified = false
          ∧ sendOk cid = true ∧ st' = ⟨st.last_message_at, true⟩)
      ∨ (∃ st, o = some st ∧ st.notified = true
          ∧ st' = ⟨st.last_message_at, false⟩)) := by
  rintro (h | h | ⟨st, cfg, h1, h2, h3, h4, h5, h6⟩ | h)
  · exact Or.inl h
  · exact Or.inr (Or.inl h)
  · exact Or.inr (Or.inr (Or.inl
      ⟨st, cfg, h1, List.mem_cons.mpr (Or.inr h2), h3, h4, h5, h6⟩))
  · exact Or.inr (Or.inr (Or.inr h))

/-- Everything one tick can have done to the entry of a channel, for an
arbitrary send oracle: left it alone, created it as `⟨now, false⟩`, set
`notified` after a successful dispatch (threshold reached, was un-notified),
or cleared a set `notified` flag.  In every case except creation the
`last_message_at` field is carried over unchanged. -/
theorem tick_cases (now : Int) (sendOk : ChannelId → Bool) :
    ∀ (cfgs : Config) (s : StateMap) (cid : ChannelId) (st' : ChannelState),
      (keys cfgs).Nodup →
      (check_inactivity now sendOk cfgs s).state cid = some st' →
      s cid = some st'
      ∨ (s cid = none ∧ st' = ⟨now, false⟩)
      ∨ (∃ st cfg, s cid = some st ∧ (cid, cfg) ∈ cfgs
          ∧ cfg.threshold ≤ now - st.last_message_at ∧ st.notified = false
          ∧ sendOk cid = true ∧ st' = ⟨st.last_message_at, true⟩)
      ∨ (∃ st, s cid = some st ∧ st.notified = true
          ∧ st' = ⟨st.last_message_at, false⟩) := by
  intro cfgs
  induction cfgs with
  | nil =>
    intro s cid st' _ h
    exact Or.inl h
  | cons hd tl ih =>
    intro s cid st' hnd h
    obtain ⟨c0, cfg0⟩ := hd
    simp only [keys, List.map_cons, List.nodup_cons] at hnd
    have hnd' : (keys tl).Nodup := hnd.2
    rw [check_inactivity] at h
    by_cases hc : cid = c0
    · subst hc
      have hout : cid ∉ keys tl := by
        intro hk
        exact hnd.1 (by simpa [keys] using hk)
      cases hs0 : s cid with
      | none =>
        rw [hs0] at h
        have hfr := (check_frame now sendOk tl
          (setEntry s cid ⟨now, false⟩) cid hout).1
        rw [setEntry_self] at hfr
        rw [hfr] at h
        injection h with h'
        exact Or.inr (Or.inl ⟨rfl, h'.symm⟩)
      | some st =>
        rw [hs0] at h
        by_cases h1 : cfg0.threshold ≤ now - st.last_message_at ∧ st.notified = false
        · by_cases h2 : sendOk cid = true
          · simp only [if_pos h1, h2, if_true] at h
            have hfr := (check_frame now sendOk tl
              (setEntry s cid ⟨st.last_message_at, true⟩) cid hout).1
            rw [setEntry_self] at hfr
            rw [hfr] at h
            injection h with h'
            exact Or.inr (Or.inr (Or.inl ⟨st, cfg0, rfl,
              List.mem_cons.mpr (Or.inl rfl), h1.1, h1.2, h2, h'.symm⟩))
          · simp only [if_pos h1, if_neg h2] at h
            exact Or.inl (hs0.symm.trans h)
        · by_cases h2 : now - st.last_message_at < cfg0.threshold ∧ st.notified = true
          · simp only [if_neg h1, if_pos h2] at h
            have hfr := (check_frame now sendOk tl
              (setEntry s cid ⟨st.last_message_at, false⟩) cid hout).1
            rw [setEntry_self] at hfr
            rw [hfr] at h
            injection h with h'
            exact Or.inr (Or.inr (Or.inr ⟨st, rfl, h2.2, h'.symm⟩))
          · simp only [if_neg h1, if_neg h2] at h
            have h' := ih s cid st' hnd' h
            rw [hs0] at h'
            exact tick_cases_weaken h'
    · cases hs0 : s c0 with
      | none =>
        rw [hs0] at h
        have h' := ih (setEntry s c0 ⟨now, false⟩) cid st' hnd' h
        rw [setEntry_other s c0 cid _ hc] at h'
        exact tick_cases_weaken h'
      | some st0 =>
        rw [hs0] at h
        by_cases h1 : cfg0.threshold ≤ now - st0.last_message_at ∧ st0.notified = false
        · by_cases h2 : sendOk c0 = true
          · simp only [if_pos h1, h2, if_true] at h
            have h' := ih (setEntry s c0 ⟨st0.last_message_at, true⟩) cid st' hnd' h
            rw [setEntry_other s c0 cid _ hc] at h'
            exact tick_cases_weaken h'
          · simp only [if_pos h1, if_neg h2] at h
            exact Or.inl h
        · by_cases h2 : now - st0.last_message_at < cfg0.threshold ∧ st0.notified = true
          · simp only [if_neg h1, if_pos h2] at h
            have h' := ih (setEntry s c0 ⟨st0.last_message_at, false⟩) cid st' hnd' h
            rw [setEntry_other s c0 cid _ hc] at h'
            exact tick_cases_weaken h'
          · simp only [if_neg h1, if_neg h2] at h
            exact tick_cases_weaken (ih s cid st' hnd' h)

/-- A tick never deletes an entry: it either leaves the map at `cid`
exactly as it was, or stores some complete record there. -/
theorem tick_no_delete (now : Int) (sendOk : ChannelId → Bool) :
    ∀ (cfgs : Config) (s : StateMap) (cid : ChannelId),
      (check_inactivity now sendOk cfgs s).state cid = s cid
      ∨ ∃ v, (check_inactivity now sendOk cfgs s).state cid = some v := by
  intro cfgs
  induction cfgs with
  | nil =>
    intro s cid
    exact Or.inl rfl
  | cons hd tl ih =>
    intro s cid
    obtain ⟨c0, cfg0⟩ := hd
    rw [check_inactivity]
    have step : ∀ v : ChannelState,
        (check_inactivity now sendOk tl (setEntry s c0 v)).state cid = s cid
        ∨ ∃ w, (check_inactivity now sendOk tl (setEntry s c0 v)).state cid
            = some w := by
      intro v
      rcases ih (setEntry s c0 v) cid with h | h
      · by_cases hc : cid = c0
        · subst hc
          rw [setEntry_self] at h
          exact Or.inr ⟨v, h⟩
        · rw [setEntry_other s c0 cid _ hc] at h
          exact Or.inl h
      · exact Or.inr h
    cases hs0 : s c0 with
    | none => exact step _
    | some st =>
      by_cases h1 : cfg0.threshold ≤ now - st.last_message_at ∧ st.notified = false
      · by_cases h2 : sendOk c0 = true
        · simp only [if_pos h1, h2, if_true]
          exact step _
        · simp only [if_pos h1, h2, if_false]
          exact Or.inl rfl
      · by_cases h2 : now - st.last_message_at < cfg0.threshold ∧ st.notified = true
        · simp only [if_neg h1, if_pos h2]
          exact step _
        · simp only [if_neg h1, if_neg h2]
          exact ih s cid

/-! ### C6: lazy re-seeding of missing state -/

/-- C6.  When a tick (whose sends all succeed) finds a configured channel
without a tracker entry, it creates one carrying the current tick time and
a cleared notified flag, and neither evaluates the threshold nor
dispatches for that channel on that tick (`continue`). -/
theorem lazy_reseed (now : Int) (sendOk : ChannelId → Bool) (config : Config)
    (s : StateMap) (cid : ChannelId) (cfg : ChannelCfg)
    (hall : ∀ c, sendOk c = true) (hnd : (keys config).Nodup)
    (hmem : (cid, cfg) ∈ config) (hnone : s cid = none) :
    (check_inactivity now sendOk config s).state cid = some ⟨now, false⟩ ∧
    cid ∉ (check_inactivity now sendOk config s).fired := by
  have h := tick_exact now sendOk hall config s cid cfg hnd hmem
  rw [hnone] at h
  refine ⟨h.1, fun hmem' => ?_⟩
  have := h.2.mp hmem'
  simp [tickFires] at this

theorem lazy_reseed_witness :
    (check_inactivity 100 (fun _ => true) [(1, ⟨10, "m"⟩), (2, ⟨20, "n"⟩)]
      (fun c => if c = 1 then some ⟨0, false⟩ else none)).state 2
      = some ⟨100, false⟩ ∧
    2 ∉ (check_inactivity 100 (fun _ => true) [(1, ⟨10, "m"⟩), (2, ⟨20, "n"⟩)]
      (fun c => if c = 1 then some ⟨0, false⟩ else none)).fired :=
  lazy_reseed 100 (fun _ => true) [(1, ⟨10, "m"⟩), (2, ⟨20, "n"⟩)]
    (fun c => if c = 1 then some ⟨0, false⟩ else none) 2 ⟨20, "n"⟩
    (fun _ => rfl) (by decide) (by decide) rfl

/-! ### C8: a tick never moves the inactivity clock -/

/-- C8.  A scheduler tick never changes `last_message_at` of an existing
entry — dispatching mutates only the `notified` flag — and the bot's own
reminder message is excluded from qualifying activity: `on_message` with a
bot author leaves the state map untouched. -/
theorem tick_preserves_clock (now : Int) (sendOk : ChannelId → Bool)
    (config : Config) (s : StateMap) (hnd : (keys config).Nodup) :
    (∀ cid st st', s cid = some st →
      (check_inactivity now sendOk config s).state cid = some st' →
      st'.last_message_at = st.last_message_at) ∧
    (∀ cid t, on_message config cid t true s = s) := by
  constructor
  · intro cid st st' hst h
    rcases tick_cases now sendOk config s cid st' hnd h with
      h' | h' | ⟨st0, cfg, h1, _, _, _, _, h6⟩ | ⟨st0, h1, _, h3⟩
    · rw [hst] at h'
      injection h' with h''
      rw [h'']
    · rw [hst] at h'
      cases h'.1
    · rw [hst] at h1
      injection h1 with h''
      rw [h6, ← h'']
    · rw [hst] at h1
      injection h1 with h''
      rw [h3, ← h'']
  · intro cid t
    simp [on_message]

theorem tick_preserves_clock_witness :
    ((check_inactivity 100 (fun _ => true) [(1, ⟨10, "m"⟩)]
        (fun c => if c = 1 then some ⟨3, false⟩ else none)).state 1).map
        ChannelState.last_message_at = some 3 ∧
    on_message [(1, ⟨10, "m"⟩)] 1 99 true
        (fun c => if c = 1 then some ⟨3, false⟩ else none)
      = (fun c => if c = 1 then some ⟨3, false⟩ else none) := by
  have h := tick_preserves_clock 100 (fun _ => true) [(1, ⟨10, "m"⟩)]
    (fun c => if c = 1 then some ⟨3, false⟩ else none) (by decide)
  constructor
  · have hst : (check_inactivity 100 (fun _ => true) [(1, ⟨10, "m"⟩)]
        (fun c => if c = 1 then some ⟨3, false⟩ else none)).state 1
        = some ⟨3, true⟩ := rfl
    rw [hst, Option.map_some', h.1 1 ⟨3, false⟩ ⟨3, true⟩ rfl hst]
  · exact h.2 1 99

/-! ### C9: every write is a complete record -/

/-- `on_message` touches at most the addressed entry, and writes only the
complete record `⟨created_at, false⟩` when it does. -/
theorem on_message_cases (config : Config) (c : ChannelId) (t : Int)
    (b : Bool) (s : StateMap) (cid : ChannelId) :
    on_message config c t b s cid = s cid
    ∨ on_message config c t b s cid = some ⟨t, false⟩ := by
  rw [on_message]
  split
  · by_cases hc : cid = c
    · subst hc
      exact Or.inr (setEntry_self s cid _)
    · exact Or.inl (setEntry_other s c cid _ hc)
  · exact Or.inl rfl

/-- C9.  Every operation that creates or replaces a `STATE` entry writes a
complete `⟨last_message_at, notified⟩` record: seeding writes
`seedEntry`, activity recording writes `⟨timestamp, false⟩`, a tick either
leaves an entry alone, lazily creates `⟨now, false⟩`, or rewrites only the
`notified` field of an existing entry (`last_message_at` carried over);
and a tick never removes an entry.  (In the embedding an entry is the
record type `ChannelState` precisely because every write site of
`src/bot.py` stores both dict fields; this theorem enumerates those
writes.) -/
theorem state_shape (config : Config) (now_start now t : Int)
    (history : ChannelId → HistoryResult) (sendOk : ChannelId → Bool)
    (s : StateMap) (hnd : (keys config).Nodup) :
    (∀ cid, on_ready now_start history config s cid = s cid ∨
      on_ready now_start history config s cid
        = some (seedEntry now_start (history cid))) ∧
    (∀ cid c b, on_message config c t b s cid = s cid ∨
      on_message config c t b s cid = some ⟨t, false⟩) ∧
    (∀ cid st', (check_inactivity now sendOk config s).state cid = some st' →
      s cid = some st' ∨ st' = ⟨now, false⟩ ∨
      (∃ st, s cid = some st ∧ st'.last_message_at = st.last_message_at)) ∧
    (∀ cid st, s cid = some st →
      ∃ st', (check_inactivity now sendOk config s).state cid = some st') := by
  refine ⟨?_, ?_, ?_, ?_⟩
  · intro cid
    by_cases hmem : cid ∈ keys config
    · exact Or.inr (on_ready_sets now_start history config s cid hmem)
    · exact Or.inl (on_ready_frame now_start history config s cid hmem)
  · intro cid c b
    exact on_message_cases config c t b s cid
  · intro cid st' h
    rcases tick_cases now sendOk config s cid st' hnd h with
      h' | h' | ⟨st, cfg, h1, _, _, _, _, h6⟩ | ⟨st, h1, _, h3⟩
    · exact Or.inl h'
    · exact Or.inr (Or.inl h'.2)
    · exact Or.inr (Or.inr ⟨st, h1, by rw [h6]⟩)
    · exact Or.inr (Or.inr ⟨st, h1, by rw [h3]⟩)
  · intro cid st hst
    rcases tick_no_delete now sendOk config s cid with h | h
    · exact ⟨st, h.trans hst⟩
    · exact h

theorem state_shape_witness :
    (∃ st', (check_inactivity 100 (fun _ => true) [(1, ⟨10, "m"⟩)]
      (fun c => if c = 1 then some ⟨0, false⟩ else none)).state 1 = some st') ∧
    ((fun c => if c = 1 then some ⟨0, false⟩ else none : StateMap) 1
        = some ⟨0, true⟩
      ∨ (⟨0, true⟩ : ChannelState) = ⟨100, false⟩
      ∨ (∃ st, (fun c => if c = 1 then some ⟨0, false⟩ else none : StateMap) 1 = some st ∧
          (⟨0, true⟩ : ChannelState).last_message_at = st.last_message_at)) := by
  have h := state_shape [(1, ⟨10, "m"⟩)] 50 100 7 (fun _ => .empty)
    (fun _ => true) (fun c => if c = 1 then some ⟨0, false⟩ else none) (by decide)
  exact ⟨h.2.2.2 1 ⟨0, false⟩ rfl, h.2.2.1 1 ⟨0, true⟩ rfl⟩

/-! ### C2: the notified-flag invariant over reachable states -/

/-- The Policy A invariant: a configured channel's `notified` flag is set
only when the most recent tick (time `tPrev`) evaluated an elapsed time at
or beyond the channel's threshold. -/
def InvA (config : Config) (tPrev : Option Int) (s : StateMap) : Prop :=
  ∀ cid cfg st, dictGet cid config = some cfg → s cid = some st →
    st.notified = true →
    ∃ T, tPrev = some T ∧ cfg.threshold ≤ T - st.last_message_at

theorem InvA_tick (config : Config) (sendOk : ChannelId → Bool)
    (tPrev : Option Int) (s : StateMap) (T : Int)
    (hnd : (keys config).Nodup) (hinv : InvA config tPrev s)
    (hT : ∀ p, tPrev = some p → p ≤ T) :
    InvA config (some T) (check_inactivity T sendOk config s).state := by
  intro cid cfg st' hget hst' hnot
  rcases tick_cases T sendOk config s cid st' hnd hst' with
    h | h | ⟨st, cfg', h1, h2, h3, _, _, h6⟩ | ⟨st, _, _, h3⟩
  · obtain ⟨T0, hp, hle⟩ := hinv cid cfg st' hget h hnot
    refine ⟨T, rfl, le_trans hle ?_⟩
    have := hT T0 hp
    omega
  · rw [h.2] at hnot
    cases hnot
  · have : dictGet cid config = some cfg' := dictGet_eq_of_mem hnd h2
    rw [hget] at this
    injection this with this
    subst this
    rw [h6]
    exact ⟨T, rfl, h3⟩
  · rw [h3] at hnot
    cases hnot

theorem InvA_msg (config : Config) (tPrev : Option Int) (s : StateMap)
    (c : ChannelId) (t : Int) (b : Bool) (hinv : InvA config tPrev s) :
    InvA config tPrev (on_message config c t b s) := by
  intro cid cfg st' hget hst' hnot
  rcases on_message_cases config c t b s cid with h | h
  · rw [h] at hst'
    exact hinv cid cfg st' hget hst' hnot
  · rw [h] at hst'
    injection hst' with h'
    rw [← h'] at hnot
    cases hnot

theorem InvA_run (config : Config) (hnd : (keys config).Nodup) :
    ∀ (es : List Event) (tPrev : Option Int) (s : StateMap),
      InvA config tPrev s → ticksMonoFrom tPrev es →
      InvA config (lastTickFrom tPrev es) (run config s es) := by
  intro es
  induction es with
  | nil =>
    intro tPrev s hinv _
    exact hinv
  | cons e es ih =>
    intro tPrev s hinv hmono
    cases e with
    | tick T sendOk =>
      obtain ⟨hT, hmono'⟩ := hmono
      exact ih (some T) _ (InvA_tick config sendOk tPrev s T hnd hinv hT) hmono'
    | msg c t b =>
      exact ih tPrev _ (InvA_msg config tPrev s c t b hinv) hmono

/-- C2.  Starting from any state in which no configured channel is marked
notified (e.g. a freshly seeded one) and running any serialized trace of
ticks and messages whose tick times never go backwards, a configured
channel's `notified` flag can be `true` only if the elapsed time its entry
showed at the most recent tick, `lastTick - last_message_at`, is at least
the channel's threshold; and a qualifying (non-bot) activity event
unconditionally rewrites the entry with `notified = false`. -/
theorem notified_invariant (config : Config) (s0 : StateMap)
    (es : List Event) (hnd : (keys config).Nodup)
    (hinit : ∀ cid st, s0 cid = some st → st.notified = false)
    (hmono : ticksMonoFrom none es) :
    (∀ cid cfg st, dictGet cid config = some cfg →
      run config s0 es cid = some st → st.notified = true →
      ∃ T, lastTickFrom none es = some T
        ∧ cfg.threshold ≤ T - st.last_message_at) ∧
    (∀ s cid t cfg, dictGet cid config = some cfg →
      on_message config cid t false s cid = some ⟨t, false⟩) := by
  constructor
  · have hinv0 : InvA config none s0 := by
      intro cid cfg st _ hst hnot
      rw [hinit cid st hst] at hnot
      cases hnot
    exact fun cid cfg st hget hrun hnot =>
      InvA_run config hnd es none s0 hinv0 hmono cid cfg st hget hrun hnot
  · intro s cid t cfg hget
    rw [on_message]
    rw [if_pos ⟨by rw [hget]; rfl, rfl⟩]
    exact setEntry_self s cid _

theorem notified_invariant_witness :
    ∃ T, lastTickFrom none [Event.tick 15 (fun _ => true)] = some T ∧
      (10 : Int) ≤ T - 0 := by
  have h := notified_invariant [(1, ⟨10, "m"⟩)]
    (fun c => if c = 1 then some ⟨0, false⟩ else none)
    [Event.tick 15 (fun _ => true)] (by decide)
    (by
      intro cid st hst
      dsimp only at hst
      split at hst
      · injection hst with h'
        rw [← h']
      · cases hst)
    (by exact ⟨fun p hp => (nomatch hp), trivial⟩)
  exact h.1 1 ⟨10, "m"⟩ ⟨0, true⟩ rfl rfl rfl

/-! ### C1: exactly one dispatch per inactivity episode -/

/-- Once notified, a channel stays silent for as long as every tick still
sees an elapsed time at or beyond the threshold. -/
theorem runTicksChannel_notified (th L : Int) :
    ∀ ts : List Int, (∀ t ∈ ts, th ≤ t - L) →
      runTicksChannel th ts ⟨L, true⟩ = (⟨L, true⟩, ts.map (fun _ => false)) := by
  intro ts
  induction ts with
  | nil => intro _; rfl
  | cons t ts ih =>
    intro h
    have hp : tickChannel t th ⟨L, true⟩ = (⟨L, true⟩, false) := by
      rw [tickChannel]
      rw [if_neg (by simp)]
      rw [if_neg (by simp [not_lt.mpr (h t (List.mem_cons_self t ts))])]
    rw [runTicksChannel, hp]
    rw [ih (fun t' ht' => h t' (List.mem_cons.mpr (Or.inr ht')))]
    rfl

/-- Single-channel episode behaviour under Policy A: starting un-notified
at `lastActivityAt = L` and ticking at non-decreasing times, the dispatch
flags are exactly `firstCrossFlags` (one dispatch at the first tick whose
elapsed time reaches the threshold, none before, none after), and the
final `notified` flag records whether any tick crossed. -/
theorem runTicksChannel_episode (th L : Int) :
    ∀ ts : List Int, ts.Sorted (· ≤ ·) →
      runTicksChannel th ts ⟨L, false⟩
        = (⟨L, ts.any (fun t => decide (th ≤ t - L))⟩, firstCrossFlags th L ts) := by
  intro ts
  induction ts with
  | nil => intro _; rfl
  | cons t ts ih =>
    intro hsort
    obtain ⟨hall, hsort'⟩ := List.sorted_cons.mp hsort
    by_cases hc : th ≤ t - L
    · have hp : tickChannel t th ⟨L, false⟩ = (⟨L, true⟩, true) := by
        rw [tickChannel, if_pos ⟨hc, rfl⟩]
      rw [runTicksChannel, hp]
      rw [runTicksChannel_notified th L ts
        (fun t' ht' => le_trans hc (by have := hall t' ht'; omega))]
      rw [firstCrossFlags, if_pos hc]
      simp [hc]
    · have hp : tickChannel t th ⟨L, false⟩ = (⟨L, false⟩, false) := by
        rw [tickChannel]
        rw [if_neg (by simp [hc])]
        rw [if_neg (by simp)]
      rw [runTicksChannel, hp, ih hsort']
      rw [firstCrossFlags, if_neg hc]
      simp [hc]

/-- The full scheduler agrees with the single-channel model on any
configured channel with an existing entry, when every send succeeds. -/
theorem runTicks_bridge (config : Config) (sendOk : ChannelId → Bool)
    (cid : ChannelId) (cfg : ChannelCfg) (hall : ∀ c, sendOk c = true)
    (hnd : (keys config).Nodup) (hmem : (cid, cfg) ∈ config) :
    ∀ (ts : List Int) (s : StateMap) (st : ChannelState), s cid = some st →
      (runTicks config sendOk cid ts s).1 cid
          = some (runTicksChannel cfg.threshold ts st).1 ∧
      (runTicks config sendOk cid ts s).2
          = (runTicksChannel cfg.threshold ts st).2 := by
  intro ts
  induction ts with
  | nil =>
    intro s st hst
    exact ⟨hst, rfl⟩
  | cons t ts ih =>
    intro s st hst
    have te := tick_exact t sendOk hall config s cid cfg hnd hmem
    rw [hst] at te
    have hstate : (check_inactivity t sendOk config s).state cid
        = some (tickChannel t cfg.threshold st).1 := te.1
    have hb : decide (cid ∈ (check_inactivity t sendOk config s).fired)
        = (tickChannel t cfg.threshold st).2 := by
      cases hb2 : (tickChannel t cfg.threshold st).2
      · rw [decide_eq_false]
        intro hm
        have h' := te.2.mp hm
        rw [show tickFires t cfg.threshold (some st)
            = (tickChannel t cfg.threshold st).2 from rfl, hb2] at h'
        cases h'
      · rw [decide_eq_true]
        exact te.2.mpr (by
          rw [show tickFires t cfg.threshold (some st)
            = (tickChannel t cfg.threshold st).2 from rfl, hb2])
    have hrec := ih (check_inactivity t sendOk config s).state
      (tickChannel t cfg.threshold st).1 hstate
    rw [runTicks, runTicksChannel]
    exact ⟨hrec.1, by rw [hb, hrec.2]⟩

/-- C1.  Policy A fires exactly once per inactivity episode.  For a
configured channel starting un-notified with `lastActivityAt = L`, along
any non-decreasing sequence of tick times with no intervening activity and
all sends succeeding, the reminder is dispatched exactly at the first tick
whose elapsed time `t - L` reaches the threshold, and at no later tick
(`firstCrossFlags`); after a qualifying activity event at time `a` re-arms
the channel, the same pattern repeats with `a` as the new clock origin —
exactly one more dispatch once `t - a` reaches the threshold. -/
theorem policyA_exactly_once (config : Config) (sendOk : ChannelId → Bool)
    (cid : ChannelId) (cfg : ChannelCfg) (s : StateMap) (L a : Int)
    (ts1 ts2 : List Int) (hall : ∀ c, sendOk c = true)
    (hnd : (keys config).Nodup) (hmem : (cid, cfg) ∈ config)
    (hs : s cid = some ⟨L, false⟩)
    (hm1 : ts1.Sorted (· ≤ ·)) (hm2 : ts2.Sorted (· ≤ ·)) :
    (runTicks config sendOk cid ts1 s).2
        = firstCrossFlags cfg.threshold L ts1 ∧
    (runTicks config sendOk cid ts2
        (on_message config cid a false (runTicks config sendOk cid ts1 s).1)).2
      = firstCrossFlags cfg.threshold a ts2 := by
  have hb1 := runTicks_bridge config sendOk cid cfg hall hnd hmem ts1 s
    ⟨L, false⟩ hs
  have hep1 := runTicksChannel_episode cfg.threshold L ts1 hm1
  have hs2 : on_message config cid a false (runTicks config sendOk cid ts1 s).1 cid
      = some ⟨a, false⟩ := by
    rw [on_message]
    rw [if_pos ⟨isSome_dictGet_of_mem (List.mem_map.mpr ⟨(cid, cfg), hmem, rfl⟩), rfl⟩]
    exact setEntry_self _ cid _
  have hb2 := runTicks_bridge config sendOk cid cfg hall hnd hmem ts2
    (on_message config cid a false (runTicks config sendOk cid ts1 s).1)
    ⟨a, false⟩ hs2
  have hep2 := runTicksChannel_episode cfg.threshold a ts2 hm2
  constructor
  · rw [hb1.2, hep1]
  · rw [hb2.2, hep2]

theorem policyA_exactly_once_witness :
    (runTicks [(1, ⟨10, "m"⟩)] (fun _ => true) 1 [5, 12, 20]
        (fun c => if c = 1 then some ⟨0, false⟩ else none)).2
      = firstCrossFlags 10 0 [5, 12, 20] ∧
    (runTicks [(1, ⟨10, "m"⟩)] (fun _ => true) 1 [35, 45, 50]
        (on_message [(1, ⟨10, "m"⟩)] 1 30 false
          (runTicks [(1, ⟨10, "m"⟩)] (fun _ => true) 1 [5, 12, 20]
            (fun c => if c = 1 then some ⟨0, false⟩ else none)).1)).2
      = firstCrossFlags 10 30 [35, 45, 50] :=
  policyA_exactly_once [(1, ⟨10, "m"⟩)] (fun _ => true) 1 ⟨10, "m"⟩
    (fun c => if c = 1 then some ⟨0, false⟩ else none) 0 30
    [5, 12, 20] [35, 45, 50] (fun _ => rfl) (by decide) (by decide) rfl
    (by decide) (by decide)

end MateModsBot
